import Mathlib

/-!
Shallow embedding of the llm-ui chat application (src/app.py): JSON-like
message values, prompt construction, the reasoning-tag splitter, the turn
orchestration, and the save/load session snapshot logic.
-/

namespace LlmUI

/-- JSON values, as produced by parsing a chat-snapshot artifact. -/
inductive JVal where
  | null
  | bool (b : Bool)
  | num (n : Int)
  | str (s : String)
  | arr (xs : List JVal)
  | obj (fields : List (String × JVal))

/-- A chat message as the application itself constructs them. -/
structure Msg where
  role : String
  content : String
deriving DecidableEq

/-- The JSON dictionary the app builds for a message. -/
def mkMsg (role content : String) : JVal :=
  JVal.obj [("role", JVal.str role), ("content", JVal.str content)]

def Msg.toJ (m : Msg) : JVal := mkMsg m.role m.content

/-- Python dict key lookup on a JSON object (keys are unique in dicts;
the first binding decides). Returns none when the key is absent or the
value is not a dict, where the source would raise KeyError. -/
def dget (j : JVal) (k : String) : Option JVal :=
  match j with
  | .obj fields => (fields.find? (fun kv => kv.1 == k)).map (fun kv => kv.2)
  | _ => none

def SYSTEM_PROMPT : String :=
  "\nYou are a helpful assistant that can answer questions and help with tasks.\nWhen formulating your response you should use markdown formatting.\nYou should also consider the user\u0027s message history, provided below.\nIf you don\u0027t have enough information, just say \"I don\u0027t know\".\n"

def CHAT_SAVE_PATH : String := "saved-chats"

/-- The fixed system message prepended by create_prompt. -/
def sysMsgJ : JVal :=
  JVal.obj [("role", JVal.str "system"), ("content", JVal.str SYSTEM_PROMPT)]

/-- The loop body of create_prompt: rebuilds each history entry as a
fresh dict from its role and content keys; a missing key is the
KeyError case. -/
def promptMessages : List JVal → Option (List JVal)
  | [] => some []
  | m :: ms =>
    match dget m "role", dget m "content" with
    | some r, some c =>
      (promptMessages ms).map (fun rest => JVal.obj [("role", r), ("content", c)] :: rest)
    | _, _ => none

/-- create_prompt from src/app.py: a system message followed by the
rebuilt history. -/
def create_prompt (chat_history : List JVal) : Option (List JVal) :=
  (promptMessages chat_history).map (fun ms => sysMsgJ :: ms)

/-! ### The reasoning splitter (split_think_content)

The source matches the regex `<think>(.*?)</think>` with DOTALL and
IGNORECASE: the first match starts at the leftmost position where the
opening tag matches case-insensitively and a closing tag occurs later;
the lazy group ends at the earliest such closing tag. `re.sub` removes
every non-overlapping match, scanning left to right. Text is embedded
as `List Char`. -/

/-- Case-insensitive character comparison, as IGNORECASE matching does
for the ASCII letters of the tags. -/
def lcEq (a b : Char) : Bool := a.toLower == b.toLower

/-- Does the pattern match case-insensitively at the head of the text? -/
def startsWithCI : List Char → List Char → Bool
  | [], _ => true
  | _ :: _, [] => false
  | p :: ps, c :: cs => lcEq p c && startsWithCI ps cs

/-- Earliest case-insensitive occurrence of the pattern: returns the
text before the occurrence and the text after it. -/
def splitFirstCI (pat : List Char) : List Char → Option (List Char × List Char)
  | [] => if startsWithCI pat [] then some ([], []) else none
  | c :: cs =>
    if startsWithCI pat (c :: cs) then some ([], (c :: cs).drop pat.length)
    else (splitFirstCI pat cs).map (fun pr => (c :: pr.1, pr.2))

def openTag : List Char := ['<', 't', 'h', 'i', 'n', 'k', '>']

def closeTag : List Char := ['<', '/', 't', 'h', 'i', 'n', 'k', '>']

/-- A regex match attempt at the current position: the opening tag must
match here and a closing tag must occur somewhere later; the lazy group
is the text up to the earliest closing tag. Returns (interior, rest). -/
def matchAtCI (s : List Char) : Option (List Char × List Char) :=
  if startsWithCI openTag s then splitFirstCI closeTag (s.drop openTag.length)
  else none

/-- re.search: the leftmost match of the think pattern, as
(text before the match, interior group, text after the match). -/
def firstThink : List Char → Option (List Char × List Char × List Char)
  | [] => none
  | c :: cs =>
    match matchAtCI (c :: cs) with
    | some (inner, post) => some ([], inner, post)
    | none => (firstThink cs).map (fun t => (c :: t.1, t.2.1, t.2.2))

/-- re.sub loop: scan left to right, remove each match and continue
after it. Fuel-indexed so the recursion is structural; one unit of fuel
is spent per position or per removed match, so the text length is
always enough fuel. -/
def removeAllGo : Nat → List Char → List Char
  | 0, s => s
  | _ + 1, [] => []
  | fuel + 1, c :: cs =>
    match matchAtCI (c :: cs) with
    | some (_, post) => removeAllGo fuel post
    | none => c :: removeAllGo fuel cs

/-- think_pattern.sub applied to the whole text. -/
def removeAllThink (s : List Char) : List Char := removeAllGo s.length s

/-- Python str.strip() whitespace, restricted to the ASCII range. -/
def isPyWs (c : Char) : Bool :=
  c == ' ' || c == '\t' || c == '\n' || c == '\r' || c == '\x0b' || c == '\x0c'

/-- Python str.strip(): drop whitespace from both ends. -/
def pyStrip (s : List Char) : List Char :=
  ((s.dropWhile isPyWs).reverse.dropWhile isPyWs).reverse

/-- split_think_content from src/app.py: returns (message, thinking).
With no match the response is returned unchanged and thinking is empty;
with a match, thinking is the stripped interior of the first match and
message is the response with every match removed, then stripped. -/
def splitThinkContent (response : List Char) : List Char × List Char :=
  match firstThink response with
  | none => (response, [])
  | some t => (pyStrip (removeAllThink response), pyStrip t.2.1)

/-! ### Session state, the turn orchestration, and save/load -/

/-- The streamlit session state the app keeps. -/
structure AppState where
  chat_history : List JVal
  current_model : String
  session_id : String

/-- One appended record of the interaction log file. -/
structure LogEntry where
  session_id : String
  timestamp : String
  role : JVal
  query : JVal
  prompt : List JVal
  response : String

inductive TurnError where
  | keyError
  | backend (e : String)
  | logFail
deriving DecidableEq

/-- One chat turn of main(): append the user message, build the prompt,
call the backend, append a log record, then append the assistant
message. The backend is an oracle that may fail; an unwritable log path
makes the log append fail. An exception anywhere aborts the rest of the
turn, keeping every state mutation already performed. -/
def runTurn (chat : String → List JVal → Except String String) (logWritable : Bool)
    (st : AppState) (log : List LogEntry) (userInput : String) (now : String) :
    AppState × List LogEntry × Option TurnError :=
  let hist1 := st.chat_history ++ [mkMsg "user" userInput]
  let st1 : AppState := { st with chat_history := hist1 }
  match create_prompt hist1 with
  | none => (st1, log, some .keyError)
  | some messages =>
    match chat st.current_model messages with
    | .error e => (st1, log, some (.backend e))
    | .ok resp =>
      if logWritable then
        let entry : LogEntry :=
          { session_id := st.session_id
            timestamp := now
            role := ((hist1.getLast?).bind (fun m => dget m "role")).getD (JVal.str "user")
            query := ((hist1.getLast?).bind (fun m => dget m "content")).getD (JVal.str "")
            prompt := messages
            response := resp }
        ({ st1 with chat_history := hist1 ++ [mkMsg "assistant" resp] }, log ++ [entry], none)
      else (st1, log, some .logFail)

/-- Outcome of the Save Chat button: either nothing is written, or one
file with the given path and JSON content is written. -/
inductive SaveResult where
  | nothingToSave
  | saved (path : String) (data : JVal)

/-- The Save Chat handler: writes the history as a JSON array to
saved-chats/chat_history_<sessionId>.json only when the history has
more than one message. -/
def save_chat (st : AppState) : SaveResult :=
  if 1 < st.chat_history.length then
    SaveResult.saved (CHAT_SAVE_PATH ++ "/chat_history_" ++ st.session_id ++ ".json")
      (JVal.arr st.chat_history)
  else SaveResult.nothingToSave

/-- The per-element validation of the Load Chat handler:
isinstance(msg, dict) and "role" in msg and "content" in msg. -/
def isDictWithRoleContent : JVal → Bool
  | .obj fields => fields.any (fun kv => kv.1 == "role") && fields.any (fun kv => kv.1 == "content")
  | _ => false

inductive LoadResult where
  | parseFailed (e : String)
  | invalidFormat
  | loaded
deriving DecidableEq

/-- The Load Chat handler: `parsed` is the outcome of json.load on the
uploaded artifact; a parse exception or a failed validation leaves the
session untouched, a valid list replaces the history wholesale and
installs the freshly generated session id. -/
def load_chat (parsed : Except String JVal) (freshId : String) (st : AppState) :
    AppState × LoadResult :=
  match parsed with
  | .error e => (st, LoadResult.parseFailed e)
  | .ok (.arr xs) =>
    if xs.all isDictWithRoleContent then
      ({ st with chat_history := xs, session_id := freshId }, LoadResult.loaded)
    else (st, LoadResult.invalidFormat)
  | .ok _ => (st, LoadResult.invalidFormat)

/-! ### Fixtures and statement vocabulary -/

/-- The segments used to state the splitter theorems contain no
character that case-folds to the tag-opening bracket, so no tag can
begin inside them. -/
@[reducible] def LtFree (s : List Char) : Prop := ∀ c ∈ s, c.toLower ≠ '<'

/-- The raw text assembled from a leading segment and a list of spans,
each span being an interior and the segment following its closing tag. -/
def spansText : List (List Char × List Char) → List Char
  | [] => []
  | (b, a) :: rest => openTag ++ (b ++ (closeTag ++ (a ++ spansText rest)))

/-- The text left over when every span of the list is removed. -/
def seconds : List (List Char × List Char) → List Char
  | [] => []
  | (_, a) :: rest => a ++ seconds rest

/-- A concrete fresh session state. -/
def st0 : AppState :=
  { chat_history := [], current_model := "llama3.2:latest", session_id := "s0" }

/-- A concrete session holding a lone message. -/
def st1ex : AppState :=
  { chat_history := [mkMsg "user" "Hi"], current_model := "llama3.2:latest",
    session_id := "sid1" }

/-- A concrete session holding a full exchange. -/
def st2ex : AppState :=
  { chat_history := [mkMsg "user" "Hi", mkMsg "assistant" "Hello"],
    current_model := "llama3.2:latest", session_id := "sid2" }

/-- A concrete two-message history. -/
def histEx : List Msg :=
  [{ role := "user", content := "Hi" }, { role := "assistant", content := "Hello" }]

/-! ### Lemmas about the splitter scan -/

lemma lcEq_refl (a : Char) : lcEq a a = true := by simp [lcEq]

lemma toLower_ltbr : '<'.toLower = '<' := by decide

lemma lcEq_ltbr_false {c : Char} (hc : c.toLower ≠ '<') : lcEq '<' c = false := by
  have h : ¬('<' = c.toLower) := fun h => hc h.symm
  simp [lcEq, toLower_ltbr, h]

lemma startsWithCI_lt_head_false (t : List Char) {c : Char} (cs : List Char)
    (hc : c.toLower ≠ '<') : startsWithCI ('<' :: t) (c :: cs) = false := by
  simp [startsWithCI, lcEq_ltbr_false hc]

lemma startsWithCI_self_append (t r : List Char) : startsWithCI t (t ++ r) = true := by
  induction t with
  | nil => simp [startsWithCI]
  | cons c cs ih => simp [startsWithCI, lcEq_refl, ih]

lemma openTag_append (X : List Char) :
    openTag ++ X = '<' :: 't' :: 'h' :: 'i' :: 'n' :: 'k' :: '>' :: X := rfl

lemma closeTag_append (X : List Char) :
    closeTag ++ X = '<' :: '/' :: 't' :: 'h' :: 'i' :: 'n' :: 'k' :: '>' :: X := rfl

lemma splitFirstCI_closeTag_here (C : List Char) :
    splitFirstCI closeTag (closeTag ++ C) = some ([], C) := by
  rw [closeTag_append, splitFirstCI]
  have hsw : startsWithCI closeTag ('<' :: '/' :: 't' :: 'h' :: 'i' :: 'n' :: 'k' :: '>' :: C) = true := by
    rw [← closeTag_append]; exact startsWithCI_self_append closeTag C
  rw [hsw]
  simp [closeTag, List.drop]

lemma splitFirstCI_ltbr_shift (t A rest : List Char) (hA : LtFree A) :
    splitFirstCI ('<' :: t) (A ++ rest) =
      (splitFirstCI ('<' :: t) rest).map (fun pr => (A ++ pr.1, pr.2)) := by
  induction A with
  | nil =>
    cases h : splitFirstCI ('<' :: t) rest <;> simp [h]
  | cons a A' ih =>
    have ha : a.toLower ≠ '<' := hA a (List.mem_cons_self a A')
    have hA' : LtFree A' := fun c hc => hA c (List.mem_cons_of_mem a hc)
    rw [List.cons_append, splitFirstCI,
      startsWithCI_lt_head_false t (A' ++ rest) ha]
    simp only [Bool.false_eq_true, if_false, ih hA']
    cases h : splitFirstCI ('<' :: t) rest <;> simp [h]

lemma splitFirstCI_closeTag_seg (B C : List Char) (hB : LtFree B) :
    splitFirstCI closeTag (B ++ (closeTag ++ C)) = some (B, C) := by
  have h := splitFirstCI_ltbr_shift ['/', 't', 'h', 'i', 'n', 'k', '>'] B (closeTag ++ C) hB
  have e : closeTag = '<' :: ['/', 't', 'h', 'i', 'n', 'k', '>'] := rfl
  rw [← e] at h
  rw [h, splitFirstCI_closeTag_here]
  simp

lemma matchAtCI_open (B C : List Char) (hB : LtFree B) :
    matchAtCI (openTag ++ (B ++ (closeTag ++ C))) = some (B, C) := by
  rw [matchAtCI, startsWithCI_self_append openTag (B ++ (closeTag ++ C))]
  simp only [if_true]
  rw [List.drop_left, splitFirstCI_closeTag_seg B C hB]

lemma matchAtCI_none_head {c : Char} (cs : List Char) (hc : c.toLower ≠ '<') :
    matchAtCI (c :: cs) = none := by
  have e : openTag = '<' :: ['t', 'h', 'i', 'n', 'k', '>'] := rfl
  rw [matchAtCI, e, startsWithCI_lt_head_false _ cs hc]
  simp

lemma firstThink_open_step (B C : List Char) (hB : LtFree B) :
    firstThink (openTag ++ (B ++ (closeTag ++ C))) = some ([], B, C) := by
  rw [openTag_append, firstThink, ← openTag_append, matchAtCI_open B C hB]

lemma firstThink_seg (A B C : List Char) (hA : LtFree A) (hB : LtFree B) :
    firstThink (A ++ (openTag ++ (B ++ (closeTag ++ C)))) = some (A, B, C) := by
  induction A with
  | nil => rw [List.nil_append, firstThink_open_step B C hB]
  | cons a A' ih =>
    have ha : a.toLower ≠ '<' := hA a (List.mem_cons_self a A')
    have hA' : LtFree A' := fun c hc => hA c (List.mem_cons_of_mem a hc)
    rw [List.cons_append, firstThink, matchAtCI_none_head _ ha, ih hA']
    rfl

lemma spansText_eq_nil {spans : List (List Char × List Char)}
    (h : spansText spans = []) : spans = [] := by
  cases spans with
  | nil => rfl
  | cons p rest =>
    obtain ⟨b, a⟩ := p
    rw [spansText, openTag_append] at h
    exact absurd h (by simp)

lemma removeAllGo_spans :
    ∀ (fuel : Nat) (A : List Char) (spans : List (List Char × List Char)),
      LtFree A → (∀ p ∈ spans, LtFree p.1 ∧ LtFree p.2) →
      (A ++ spansText spans).length ≤ fuel →
      removeAllGo fuel (A ++ spansText spans) = A ++ seconds spans := by
  intro fuel
  induction fuel with
  | zero =>
    intro A spans hA hsp hfuel
    have h0 : A ++ spansText spans = [] := by
      cases h : A ++ spansText spans with
      | nil => rfl
      | cons x xs => rw [h] at hfuel; simp at hfuel
    have hA0 : A = [] := (List.append_eq_nil.mp h0).1
    have hs0 : spans = [] := spansText_eq_nil (List.append_eq_nil.mp h0).2
    subst hA0; subst hs0
    rfl
  | succ fuel ih =>
    intro A spans hA hsp hfuel
    cases A with
    | cons a A' =>
      have ha : a.toLower ≠ '<' := hA a (List.mem_cons_self a A')
      have hA' : LtFree A' := fun c hc => hA c (List.mem_cons_of_mem a hc)
      rw [List.cons_append, removeAllGo, matchAtCI_none_head _ ha]
      have hfuel' : (A' ++ spansText spans).length ≤ fuel := by
        rw [List.cons_append] at hfuel
        simpa using Nat.le_of_succ_le_succ hfuel
      rw [List.cons_append]
      exact congrArg (a :: ·) (ih A' spans hA' hsp hfuel')
    | nil =>
      cases spans with
      | nil => rfl
      | cons p rest =>
        obtain ⟨B, A1⟩ := p
        have hB : LtFree B := (hsp (B, A1) (List.mem_cons_self _ _)).1
        have hA1 : LtFree A1 := (hsp (B, A1) (List.mem_cons_self _ _)).2
        have hrest : ∀ q ∈ rest, LtFree q.1 ∧ LtFree q.2 :=
          fun q hq => hsp q (List.mem_cons_of_mem _ hq)
        rw [List.nil_append, spansText, openTag_append, removeAllGo, ← openTag_append,
          matchAtCI_open B (A1 ++ spansText rest) hB]
        have hfuel' : (A1 ++ spansText rest).length ≤ fuel := by
          rw [List.nil_append, spansText, openTag_append] at hfuel
          simp only [List.length_cons, List.length_append] at hfuel ⊢
          omega
        rw [List.nil_append, seconds]
        exact ih A1 rest hA1 hrest hfuel'

lemma firstThink_spans (A B A1 : List Char) (rest : List (List Char × List Char))
    (hA : LtFree A) (hB : LtFree B) :
    firstThink (A ++ spansText ((B, A1) :: rest)) = some (A, B, A1 ++ spansText rest) := by
  rw [spansText]
  exact firstThink_seg A B (A1 ++ spansText rest) hA hB

/-- The key splitter theorem: on a text made of a clean leading segment
and one or more clean spans, thinking is the stripped interior of the
first span and the message is the stripped concatenation of everything
outside the spans. -/
lemma splitThink_spans (A B A1 : List Char) (rest : List (List Char × List Char))
    (hA : LtFree A) (hsp : ∀ p ∈ (B, A1) :: rest, LtFree p.1 ∧ LtFree p.2) :
    splitThinkContent (A ++ spansText ((B, A1) :: rest)) =
      (pyStrip (A ++ seconds ((B, A1) :: rest)), pyStrip B) := by
  have hB : LtFree B := (hsp (B, A1) (List.mem_cons_self _ _)).1
  have hft := firstThink_spans A B A1 rest hA hB
  have hra : removeAllThink (A ++ spansText ((B, A1) :: rest)) =
      A ++ seconds ((B, A1) :: rest) :=
    removeAllGo_spans _ A ((B, A1) :: rest) hA hsp (Nat.le_refl _)
  simp only [splitThinkContent, hft]
  rw [hra]

/-! ### No-match lemmas -/

lemma splitFirstCI_cons_eq (pat : List Char) (c : Char) (cs : List Char) :
    splitFirstCI pat (c :: cs) =
      if startsWithCI pat (c :: cs) then some ([], (c :: cs).drop pat.length)
      else (splitFirstCI pat cs).map (fun pr => (c :: pr.1, pr.2)) := rfl

lemma splitFirstCI_none_tail {pat : List Char} {c : Char} {cs : List Char}
    (h : splitFirstCI pat (c :: cs) = none) : splitFirstCI pat cs = none := by
  rw [splitFirstCI_cons_eq] at h
  by_cases hsw : startsWithCI pat (c :: cs) = true
  · rw [hsw] at h; simp at h
  · rw [if_neg hsw] at h
    cases hr : splitFirstCI pat cs with
    | none => rfl
    | some pr => rw [hr] at h; simp at h

lemma splitFirstCI_none_drop {pat : List Char} :
    ∀ (n : Nat) (s : List Char), splitFirstCI pat s = none →
      splitFirstCI pat (s.drop n) = none := by
  intro n
  induction n with
  | zero => intro s h; simpa using h
  | succ n ih =>
    intro s h
    cases s with
    | nil => simpa using h
    | cons c cs => rw [List.drop_succ_cons]; exact ih cs (splitFirstCI_none_tail h)

lemma firstThink_none_of_no_open :
    ∀ {s : List Char}, splitFirstCI openTag s = none → firstThink s = none := by
  intro s
  induction s with
  | nil => intro _; rfl
  | cons c cs ih =>
    intro h
    have hsw : startsWithCI openTag (c :: cs) = false := by
      by_cases hsw : startsWithCI openTag (c :: cs) = true
      · rw [splitFirstCI_cons_eq, hsw] at h; simp at h
      · simpa using hsw
    rw [firstThink, matchAtCI, hsw]
    simp only [Bool.false_eq_true, if_false]
    rw [ih (splitFirstCI_none_tail h)]
    rfl

lemma firstThink_none_of_no_close :
    ∀ {s : List Char}, splitFirstCI closeTag s = none → firstThink s = none := by
  intro s
  induction s with
  | nil => intro _; rfl
  | cons c cs ih =>
    intro h
    have hm : matchAtCI (c :: cs) = none := by
      rw [matchAtCI]
      by_cases hsw : startsWithCI openTag (c :: cs) = true
      · rw [hsw, if_pos rfl]
        exact splitFirstCI_none_drop openTag.length (c :: cs) h
      · rw [if_neg hsw]
    rw [firstThink, hm, ih (splitFirstCI_none_tail h)]
    rfl

/-! ### Claims about the reasoning splitter -/

/-- C2, counterexample: on a response holding two complete think spans,
split_think_content does not return the raw text with only the first
span removed — re.sub removes both spans. -/
theorem c2_counterexample :
    splitThinkContent ("<think>a</think>X<think>b</think>Y".toList) ≠
      ("X<think>b</think>Y".toList, "a".toList) := by decide

/-- C2, amended: for every raw response containing at least one
complete think span (clean segments), the reasoning is the trimmed
interior of the first span and the visible text is the raw text with
every matched span (not only the first) removed, then trimmed. -/
theorem c2_amended_split (A B A1 : List Char) (rest : List (List Char × List Char))
    (hA : LtFree A) (hsp : ∀ p ∈ (B, A1) :: rest, LtFree p.1 ∧ LtFree p.2) :
    splitThinkContent (A ++ spansText ((B, A1) :: rest)) =
      (pyStrip (A ++ seconds ((B, A1) :: rest)), pyStrip B) :=
  splitThink_spans A B A1 rest hA hsp

theorem c2_amended_split_witness :
    splitThinkContent (" x".toList ++ spansText [(" r ".toList, "y ".toList)]) =
      ("xy".toList, "r".toList) := by
  have h := c2_amended_split " x".toList " r ".toList "y ".toList []
    (by decide) (by decide)
  rw [h]; decide

/-- C8: a raw response with no complete marker pair — no opening marker
at all, or no closing delimiter anywhere — yields empty reasoning and
the raw text unchanged, with no trimming applied. -/
theorem c8_no_pair (raw : List Char)
    (h : splitFirstCI openTag raw = none ∨ splitFirstCI closeTag raw = none) :
    splitThinkContent raw = (raw, []) := by
  have hft : firstThink raw = none := by
    cases h with
    | inl h => exact firstThink_none_of_no_open h
    | inr h => exact firstThink_none_of_no_close h
  simp only [splitThinkContent, hft]

theorem c8_no_pair_witness :
    splitThinkContent ("<think>abc".toList) = ("<think>abc".toList, []) :=
  c8_no_pair ("<think>abc".toList) (Or.inr (by decide))

/-- C9, counterexample: on a marker-free response with surrounding
whitespace, split_think_content returns the raw text unchanged, not the
trimmed text the claim states. -/
theorem c9_counterexample :
    splitThinkContent (" hi ".toList) ≠ (pyStrip (" hi ".toList), []) := by decide

/-- C9, amended: for all raw responses containing no reasoning markers,
split returns the raw text unchanged (no trimming) and empty
reasoning. -/
theorem c9_amended_no_markers (raw : List Char)
    (hopen : splitFirstCI openTag raw = none)
    (_hclose : splitFirstCI closeTag raw = none) :
    splitThinkContent raw = (raw, []) := by
  have hft : firstThink raw = none := firstThink_none_of_no_open hopen
  simp only [splitThinkContent, hft]

theorem c9_amended_no_markers_witness :
    splitThinkContent (" hi ".toList) = (" hi ".toList, []) :=
  c9_amended_no_markers (" hi ".toList) (by decide) (by decide)

/-- C10: on a raw response containing two or more complete think spans
(clean segments), the visible text is the raw text with every matched
span removed, then trimmed, while the reasoning is the trimmed interior
of the first span only. -/
theorem c10_multiple_spans (A B A1 B2 A2 : List Char)
    (rest : List (List Char × List Char)) (hA : LtFree A)
    (hsp : ∀ p ∈ (B, A1) :: (B2, A2) :: rest, LtFree p.1 ∧ LtFree p.2) :
    splitThinkContent (A ++ spansText ((B, A1) :: (B2, A2) :: rest)) =
      (pyStrip (A ++ seconds ((B, A1) :: (B2, A2) :: rest)), pyStrip B) :=
  splitThink_spans A B A1 ((B2, A2) :: rest) hA hsp

theorem c10_multiple_spans_witness :
    splitThinkContent
        ("x".toList ++ spansText [("r1".toList, "y".toList), ("r2".toList, "z".toList)]) =
      ("xyz".toList, "r1".toList) := by
  have h := c10_multiple_spans "x".toList "r1".toList "y".toList "r2".toList "z".toList []
    (by decide) (by decide)
  rw [h]; decide

/-! ### Claims about the prompt builder and the turn orchestration -/

lemma promptMessages_map_toJ (H : List Msg) :
    promptMessages (H.map Msg.toJ) = some (H.map Msg.toJ) := by
  induction H with
  | nil => rfl
  | cons m hs ih =>
    have hr : dget (Msg.toJ m) "role" = some (JVal.str m.role) := rfl
    have hc : dget (Msg.toJ m) "content" = some (JVal.str m.content) := rfl
    rw [List.map_cons, promptMessages, hr, hc, ih]
    rfl

/-- C1: for every history of role/content messages, create_prompt
returns a list one longer than the history whose head is the fixed
system message and whose tail is the history itself, in order, with
role and content unchanged. -/
theorem c1_create_prompt (H : List Msg) :
    create_prompt (H.map Msg.toJ) = some (sysMsgJ :: H.map Msg.toJ) ∧
    (sysMsgJ :: H.map Msg.toJ).length = H.length + 1 := by
  constructor
  · rw [create_prompt, promptMessages_map_toJ H]
    rfl
  · simp

/-- C3: when the backend chat call fails, the turn ends with the user
message appended to the history, no assistant message, and no log
record written. -/
theorem c3_backend_failure (chat : String → List JVal → Except String String)
    (logWritable : Bool) (st : AppState) (log : List LogEntry)
    (input now e : String) (msgs : List JVal)
    (hmsgs : create_prompt (st.chat_history ++ [mkMsg "user" input]) = some msgs)
    (herr : chat st.current_model msgs = Except.error e) :
    runTurn chat logWritable st log input now =
      ({ st with chat_history := st.chat_history ++ [mkMsg "user" input] }, log,
        some (TurnError.backend e)) := by
  simp only [runTurn, hmsgs, herr]

theorem c3_backend_failure_witness :
    runTurn (fun _ _ => Except.error "backend down") true st0 [] "Hi" "t0" =
      ({ st0 with chat_history := st0.chat_history ++ [mkMsg "user" "Hi"] }, [],
        some (TurnError.backend "backend down")) :=
  c3_backend_failure (fun _ _ => Except.error "backend down") true st0 [] "Hi" "t0"
    "backend down" (sysMsgJ :: [mkMsg "user" "Hi"]) rfl rfl

/-- C7, counterexample: with a succeeding backend and a failing log
append, the turn does not complete — the assistant message is not
appended to the history. -/
theorem c7_counterexample :
    (runTurn (fun _ _ => Except.ok "Hello there!") false st0 [] "Hi" "t0").1.chat_history ≠
      [mkMsg "user" "Hi", mkMsg "assistant" "Hello there!"] := by
  have h : (runTurn (fun _ _ => Except.ok "Hello there!") false st0 [] "Hi" "t0").1.chat_history
      = [mkMsg "user" "Hi"] := rfl
  rw [h]
  simp

/-- C7, amended: when the backend chat call succeeds but the log append
fails, the log exception propagates and aborts the turn: the response
is not returned, no assistant message is appended beyond the user
message, and no log record is written. -/
theorem c7_amended_log_failure (chat : String → List JVal → Except String String)
    (st : AppState) (log : List LogEntry) (input now resp : String) (msgs : List JVal)
    (hmsgs : create_prompt (st.chat_history ++ [mkMsg "user" input]) = some msgs)
    (hok : chat st.current_model msgs = Except.ok resp) :
    runTurn chat false st log input now =
      ({ st with chat_history := st.chat_history ++ [mkMsg "user" input] }, log,
        some TurnError.logFail) := by
  simp only [runTurn, hmsgs, hok]
  rfl

theorem c7_amended_log_failure_witness :
    runTurn (fun _ _ => Except.ok "Hello there!") false st0 [] "Hi" "t0" =
      ({ st0 with chat_history := st0.chat_history ++ [mkMsg "user" "Hi"] }, [],
        some TurnError.logFail) :=
  c7_amended_log_failure (fun _ _ => Except.ok "Hello there!") st0 [] "Hi" "t0"
    "Hello there!" (sysMsgJ :: [mkMsg "user" "Hi"]) rfl rfl

/-! ### Claims about session snapshots (save and load) -/

lemma toJ_valid (m : Msg) : isDictWithRoleContent (Msg.toJ m) = true := rfl

/-- C4: load accepts exactly a parsed list whose elements are all dicts
with both role and content keys; any parse or validation failure leaves
history and session id unchanged; success replaces the history
wholesale with the loaded list and installs the freshly generated
session id. -/
theorem c4_load_validation (parsed : Except String JVal) (freshId : String) (st : AppState) :
    ((load_chat parsed freshId st).2 ≠ LoadResult.loaded →
      (load_chat parsed freshId st).1 = st) ∧
    (∀ xs, parsed = Except.ok (JVal.arr xs) →
      (∀ m ∈ xs, isDictWithRoleContent m = true) →
      load_chat parsed freshId st =
        ({ st with chat_history := xs, session_id := freshId }, LoadResult.loaded)) ∧
    ((load_chat parsed freshId st).2 = LoadResult.loaded →
      ∃ xs, parsed = Except.ok (JVal.arr xs) ∧
        (∀ m ∈ xs, isDictWithRoleContent m = true) ∧
        (load_chat parsed freshId st).1 =
          { st with chat_history := xs, session_id := freshId }) ∧
    (∀ fields, isDictWithRoleContent (JVal.obj fields) = true ↔
      ((∃ p ∈ fields, p.1 = "role") ∧ (∃ p ∈ fields, p.1 = "content"))) := by
  refine ⟨?_, ?_, ?_, ?_⟩
  · intro hr
    match parsed with
    | .error e => rfl
    | .ok (.arr xs) =>
      by_cases hall : xs.all isDictWithRoleContent = true
      · exact absurd (by simp [load_chat, hall]) hr
      · simp [load_chat, hall]
    | .ok .null => rfl
    | .ok (.bool b) => rfl
    | .ok (.num n) => rfl
    | .ok (.str s) => rfl
    | .ok (.obj fs) => rfl
  · intro xs hx hall
    subst hx
    have h : xs.all isDictWithRoleContent = true := List.all_eq_true.mpr hall
    simp [load_chat, h]
  · intro hr
    match hp : parsed with
    | .error e => simp [load_chat] at hr
    | .ok (.arr xs) =>
      by_cases hall : xs.all isDictWithRoleContent = true
      · exact ⟨xs, rfl, List.all_eq_true.mp hall, by simp [load_chat, hall]⟩
      · rw [load_chat] at hr; simp [hall] at hr
    | .ok .null => simp [load_chat] at hr
    | .ok (.bool b) => simp [load_chat] at hr
    | .ok (.num n) => simp [load_chat] at hr
    | .ok (.str s) => simp [load_chat] at hr
    | .ok (.obj fs) => simp [load_chat] at hr
  · intro fields
    simp [isDictWithRoleContent, List.any_eq_true]

theorem c4_load_validation_witness :
    load_chat (Except.ok (JVal.arr [mkMsg "user" "hi"])) "fresh" st0 =
      ({ st0 with chat_history := [mkMsg "user" "hi"], session_id := "fresh" },
        LoadResult.loaded) :=
  (c4_load_validation (Except.ok (JVal.arr [mkMsg "user" "hi"])) "fresh" st0).2.1
    [mkMsg "user" "hi"] rfl (by decide)

/-- C5: a history long enough to be saved serializes to a JSON array
that load accepts, reproducing the history element-for-element in role
and content while installing a fresh session id. -/
theorem c5_save_load_roundtrip (H : List Msg) (st st2 : AppState) (freshId : String)
    (hst : st.chat_history = H.map Msg.toJ) (hlen : 2 ≤ H.length) :
    save_chat st = SaveResult.saved
        (CHAT_SAVE_PATH ++ "/chat_history_" ++ st.session_id ++ ".json")
        (JVal.arr (H.map Msg.toJ)) ∧
    load_chat (Except.ok (JVal.arr (H.map Msg.toJ))) freshId st2 =
      ({ st2 with chat_history := H.map Msg.toJ, session_id := freshId },
        LoadResult.loaded) ∧
    (∀ m : Msg, dget (Msg.toJ m) "role" = some (JVal.str m.role) ∧
      dget (Msg.toJ m) "content" = some (JVal.str m.content)) := by
  refine ⟨?_, ?_, fun m => ⟨rfl, rfl⟩⟩
  · have hlt : 1 < st.chat_history.length := by
      rw [hst, List.length_map]; omega
    rw [save_chat, if_pos hlt, hst]
  · have hall : (H.map Msg.toJ).all isDictWithRoleContent = true :=
      List.all_eq_true.mpr (fun m hm => by
        obtain ⟨m0, _, hm0⟩ := List.mem_map.mp hm
        rw [← hm0]; exact toJ_valid m0)
    simp [load_chat, hall]

theorem c5_save_load_roundtrip_witness :
    load_chat (Except.ok (JVal.arr (histEx.map Msg.toJ))) "fresh" st0 =
      ({ st0 with chat_history := histEx.map Msg.toJ, session_id := "fresh" },
        LoadResult.loaded) :=
  (c5_save_load_roundtrip histEx
    { chat_history := histEx.map Msg.toJ, current_model := "llama3.2:latest",
      session_id := "old" }
    st0 "fresh" rfl (by decide)).2.1

/-- C6: the Save Chat handler writes nothing and reports nothing to
save whenever the history has at most one message; with two or more it
writes the history as a JSON array to
saved-chats/chat_history_<sessionId>.json. -/
theorem c6_save_guard (st : AppState) :
    (st.chat_history.length ≤ 1 → save_chat st = SaveResult.nothingToSave) ∧
    (2 ≤ st.chat_history.length →
      save_chat st = SaveResult.saved
        (CHAT_SAVE_PATH ++ "/chat_history_" ++ st.session_id ++ ".json")
        (JVal.arr st.chat_history)) := by
  constructor
  · intro h
    rw [save_chat, if_neg]
    omega
  · intro h
    rw [save_chat, if_pos]
    omega

theorem c6_save_guard_witness :
    save_chat st1ex = SaveResult.nothingToSave ∧
    save_chat st2ex = SaveResult.saved "saved-chats/chat_history_sid2.json"
      (JVal.arr st2ex.chat_history) := by
  constructor
  · exact (c6_save_guard st1ex).1 (by decide)
  · have h := (c6_save_guard st2ex).2 (by decide)
    rw [h]
    rfl

end LlmUI
